import Mathlib

/-!
Verification of the AIotate job pipeline (Go sources under `server/pipeline`,
`server/api-routes` and the job model file) against its specification.

Strings are embedded as `List Char` (`Str`); Go string-library functions used
by the pipeline (`strings.TrimPrefix`, `strings.TrimSuffix`, `strings.TrimSpace`,
`strings.HasPrefix`, `strings.HasSuffix`) are modelled byte-for-byte on that
representation.  Wall-clock fields (`CreatedAt`, `UpdatedAt`, `CompletedAt`)
and the `Metadata` bag are omitted: no verified property mentions them.
-/

/-- Character-list view of a Lean string literal (Go strings are byte strings;
the pipeline only manipulates them at character granularity). -/
def str (s : String) : List Char := s.data

/-- Go `unicode.IsSpace` restricted to the code points that can occur in the
pipeline's Latin-1 range: space, tab, newline, vertical tab, form feed,
carriage return, NEL and NBSP. -/
def goIsSpace (c : Char) : Bool :=
  c == ' ' || c == '\t' || c == '\n' || c == '\x0b' || c == '\x0c' || c == '\r' ||
  c == '\u0085' || c == ' '

/-- Go `strings.HasPrefix p` (here the pattern comes first). -/
def goHasPre (p l : List Char) : Bool := l.take p.length == p

/-- Go `strings.TrimPrefix`: drop `p` from the front when it is a prefix. -/
def goTrimPre (p l : List Char) : List Char :=
  if goHasPre p l then l.drop p.length else l

/-- Go `strings.HasSuffix`. -/
def goHasSuf (p l : List Char) : Bool := l.drop (l.length - p.length) == p

/-- Go `strings.TrimSuffix`: drop `p` from the back when it is a suffix. -/
def goTrimSuf (p l : List Char) : List Char :=
  if goHasSuf p l then l.take (l.length - p.length) else l

/-- Go `strings.TrimSpace`: remove leading and trailing whitespace. -/
def goTrimSpace (l : List Char) : List Char :=
  (l.dropWhile goIsSpace).rdropWhile goIsSpace

/-- Model of `cleanLatex` from `server/pipeline/ai.go`: strip markdown fence artifacts
from the model reply, in exactly the order the Go code applies them, then trim
whitespace. -/
def cleanLatex (latex : List Char) : List Char :=
  let l1 := goTrimPre (str "```latex\n") latex
  let l2 := goTrimPre (str "```latex") l1
  let l3 := goTrimPre (str "```\n") l2
  let l4 := goTrimPre (str "```") l3
  let l5 := goTrimSuf (str "\n```") l4
  let l6 := goTrimSuf (str "```") l5
  goTrimSpace l6

/-- Model of the `JobStatus` constants from the job model file. -/
inductive JobStatus where
  | pending
  | running
  | error
  | waitingManual
  | waitingAIFix
  | completed
  | aborted
deriving DecidableEq, Repr

/-- Model of the `PipelineStep` constants from the job model file. -/
inductive PipelineStep where
  | prompt
  | design
  | latex
  | compile
  | done
deriving DecidableEq, Repr

/-- The `Job` record from the job model file.  UUIDs are modelled as `Nat`
(freshness is what matters); `RetryCount`/`MaxRetries` keep Go's signed `int`
as `Int`; `ErrorMessage`/`ErrorLog` are `*string` pointers, hence `Option`. -/
structure Job where
  id : Nat
  userId : List Char
  status : JobStatus
  currentStep : PipelineStep
  prompt : List Char
  design : List Char
  latex : List Char
  pdfUrl : List Char
  errorMessage : Option (List Char)
  errorLog : Option (List Char)
  conversationId : Nat
  retryCount : Int
  maxRetries : Int
deriving DecidableEq, Repr

/-- Model of `NewJob` from the job model file: fresh job in `pending/prompt` with zero
retries.  `id` and `convId` stand for the two `uuid.New()` calls. -/
def newJob (userId prompt : List Char) (maxRetries : Int) (id convId : Nat) : Job :=
  { id := id
    userId := userId
    status := .pending
    currentStep := .prompt
    prompt := prompt
    design := []
    latex := []
    pdfUrl := []
    errorMessage := none
    errorLog := none
    conversationId := convId
    retryCount := 0
    maxRetries := maxRetries }

/-- Model of `Job.CanRetry`. -/
def Job.canRetry (j : Job) : Bool := j.retryCount < j.maxRetries

/-- Model of `Job.IncrementRetry`. -/
def Job.incrementRetry (j : Job) : Job := { j with retryCount := j.retryCount + 1 }

/-- Model of `Job.SetError`: error state with a message and an optional log. -/
def Job.setError (j : Job) (message : List Char) (log : Option (List Char)) : Job :=
  { j with status := .error, errorMessage := some message, errorLog := log }

/-- Model of `Job.SetWaitingManual`. -/
def Job.setWaitingManual (j : Job) (message : List Char) : Job :=
  { j with status := .waitingManual, errorMessage := some message }

/-- Model of `Job.SetCompleted`: completed state, step `done`, PDF URL recorded. -/
def Job.setCompleted (j : Job) (pdfURL : List Char) : Job :=
  { j with status := .completed, currentStep := .done, pdfUrl := pdfURL }

/-- Successor of a pipeline step, as in `Job.AdvanceStep`'s switch. -/
def stepNext : PipelineStep → PipelineStep
  | .prompt => .design
  | .design => .latex
  | .latex => .compile
  | .compile => .done
  | .done => .done

/-- Model of `Job.AdvanceStep`. -/
def Job.advanceStep (j : Job) : Job := { j with currentStep := stepNext j.currentStep }

/-- Model of `Job.ResetToStep`: back to `step`, `pending`, error fields cleared. -/
def Job.resetToStep (j : Job) (step : PipelineStep) : Job :=
  { j with currentStep := step, status := .pending, errorMessage := none, errorLog := none }

/-!  The worker's step executors (`Queue.executePromptStep` … `executeCompileStep`
and the step loop of `Queue.processJob`, `server/pipeline/ai.go`).  External
collaborators — `json.Unmarshal` of the request, the two text-generation calls
and the typesetter — are oracles collected in `Env`; generation and compile
outcomes are indexed by a call counter `n` that each external call advances, so
one `Env` fixes an arbitrary sequence of outcomes.  `sendUpdate` only touches
the (unmodelled) `UpdatedAt` timestamp and the status channel, so it is
dropped; the audit write of the compile step only fills `Metadata`. -/

/-- Oracles for the external collaborators of a worker pass. -/
structure Env where
  /-- does `json.Unmarshal` of `job.Prompt` succeed (`parseRequest`)? -/
  parseOk : List Char → Bool
  /-- error text of a failing `parseRequest` -/
  parseErr : List Char → List Char
  /-- outcome of the `n`-th `GenerateDesign` call: reply or error text -/
  genDesign : Nat → Except (List Char) (List Char)
  /-- outcome of the `n`-th `GenerateLatex` call (raw reply, before `cleanLatex`) -/
  genLatex : Nat → Except (List Char) (List Char)
  /-- outcome of the `n`-th typesetter call: `ok` or the compile error text -/
  compileRes : Nat → Except (List Char) Unit
  /-- does `os.MkdirAll` of the bucket directory succeed? -/
  bucketMkdirOk : Bool

/-- Model of `Queue.executePromptStep`: validate the prompt, then advance to `design`
with status `pending`.  Returns the updated job and the Go `error` result. -/
def executePromptStep (env : Env) (j : Job) : Job × Option (List Char) :=
  if j.prompt = [] then
    (j.setError (str "Empty prompt") none, some (str "empty prompt"))
  else if env.parseOk j.prompt then
    ({ j.advanceStep with status := .pending }, none)
  else
    (j.setError (str "Invalid request: " ++ env.parseErr j.prompt) none,
      some (env.parseErr j.prompt))

/-- Model of `Queue.executeDesignStep`: generate the design; on a failing generation
call retry in place while `CanRetry`, incrementing the retry counter, else set
`error`.  The conversation bookkeeping only grows the (separately modelled)
conversation and is claim-irrelevant here; the web-search enrichment only
extends the prompt text fed to the oracle. -/
def executeDesignStep (env : Env) (n : Nat) (j : Job) : Job × Nat × Option (List Char) :=
  if env.parseOk j.prompt then
    match env.genDesign n with
    | .error e =>
      if h : j.canRetry then
        executeDesignStep env (n + 1)
          { (j.incrementRetry.resetToStep .design) with status := .running }
      else
        (j.setError (str "Design generation failed: " ++ e) none, n + 1, some e)
    | .ok design =>
      ({ { j with design := design }.advanceStep with status := .pending }, n + 1, none)
  else
    (j.setError (str "Invalid request: " ++ env.parseErr j.prompt) none,
      n, some (env.parseErr j.prompt))
termination_by (j.maxRetries - j.retryCount).toNat
decreasing_by
  simp only [Job.canRetry, decide_eq_true_eq] at h
  simp only [Job.incrementRetry, Job.resetToStep]
  omega

/-- Model of `Queue.executeLatexStep`: generate the LaTeX source (the reply passes
through `cleanLatex` inside `GenerateLatex`); same retry policy as the design
step. -/
def executeLatexStep (env : Env) (n : Nat) (j : Job) : Job × Nat × Option (List Char) :=
  if env.parseOk j.prompt then
    match env.genLatex n with
    | .error e =>
      if h : j.canRetry then
        executeLatexStep env (n + 1)
          { (j.incrementRetry.resetToStep .latex) with status := .running }
      else
        (j.setError (str "LaTeX generation failed: " ++ e) none, n + 1, some e)
    | .ok reply =>
      ({ { j with latex := cleanLatex reply }.advanceStep with status := .pending },
        n + 1, none)
  else
    (j.setError (str "Invalid request: " ++ env.parseErr j.prompt) none,
      n, some (env.parseErr j.prompt))
termination_by (j.maxRetries - j.retryCount).toNat
decreasing_by
  simp only [Job.canRetry, decide_eq_true_eq] at h
  simp only [Job.incrementRetry, Job.resetToStep]
  omega

/-- Model of `Queue.executeCompileStep`: fail terminally on empty source or a failing
typesetter call (note: `SetError` is given a `nil` log), else mark the job
completed with the `/vela/bucket/bucket/<id>.pdf` URL. -/
def executeCompileStep (env : Env) (n : Nat) (j : Job) : Job × Nat × Option (List Char) :=
  if goTrimSpace j.latex = [] then
    (j.setError (str "No LaTeX available for compilation") none,
      n, some (str "No LaTeX available for compilation"))
  else if env.bucketMkdirOk then
    match env.compileRes n with
    | .error e =>
      (j.setError (str "LaTeX compilation failed: " ++ e) none, n + 1, some e)
    | .ok _ =>
      (j.setCompleted (str "/vela/bucket/bucket/" ++ (Nat.repr j.id).data ++ str ".pdf"),
        n + 1, none)
  else
    (j.setError (str "Failed to create bucket directory") none,
      n, some (str "mkdir failed"))

/-- Dispatch of `processJob`'s `switch job.CurrentStep` (the `done` arm returns
directly in the loop below). -/
def runStep (env : Env) (n : Nat) (j : Job) : Job × Nat × Option (List Char) :=
  match j.currentStep with
  | .prompt => let (j', e) := executePromptStep env j; (j', n, e)
  | .design => executeDesignStep env n j
  | .latex => executeLatexStep env n j
  | .compile => executeCompileStep env n j
  | .done => (j, n, none)

/-- The step loop of `Queue.processJob`, with explicit fuel (`none` = fuel ran
out; the Go loop is unbounded).  Each iteration runs the step for
`currentStep`, returns on a step error or on any status outside
`pending`/`running`, and otherwise re-marks the job `running` and continues. -/
def stepLoopFuel : Nat → Env → Nat → Job → Option (Job × Nat × Option (List Char))
  | 0, _, _, _ => none
  | fuel + 1, env, n, j =>
    match j.currentStep with
    | .done => some (j, n, none)
    | _ =>
      let (j', n', e) := runStep env n j
      match e with
      | some err => some (j', n', some err)
      | none =>
        if j'.status ≠ .pending ∧ j'.status ≠ .running then some (j', n', none)
        else stepLoopFuel fuel env n' { j' with status := .running }

/-- Model of `Queue.processJob` minus the lock bookkeeping: skip jobs not in
`pending`/`running`, otherwise mark `running` and run the step loop (fuel 5 is
proven sufficient below). -/
def processJob (env : Env) (n : Nat) (j : Job) : Option (Job × Nat × Option (List Char)) :=
  if j.status ≠ .pending ∧ j.status ≠ .running then some (j, n, none)
  else stepLoopFuel 5 env n { j with status := .running }

/-!  Control operations (`server/api-routes/latex.go`).  Each handler loads the
job, mutates it as below and saves it; request-validation failures return
before any mutation, and the AI calls of refine/fix are oracles whose reply is
passed in (a failing call also returns without mutating the job). -/

/-- Handler `handlePipelineDesignApprove`: step to `latex`, status `pending`. -/
def designApprove (j : Job) : Job := { j with currentStep := .latex, status := .pending }

/-- Handler `handlePipelineDesignRefine` (success path): store the refined design and
set `waiting_manual`; `errorMessage` is not touched. -/
def designRefine (refined : List Char) (j : Job) : Job :=
  { j with design := refined, status := .waitingManual, currentStep := .design }

/-- Handler `handlePipelineLatexApprove`: step to `compile`, status `pending`. -/
def latexApprove (j : Job) : Job := { j with currentStep := .compile, status := .pending }

/-- Handler `handlePipelineLatexEdit` (non-empty source): replace the source verbatim,
step to `compile`, status `pending`. -/
def latexEdit (newLatex : List Char) (j : Job) : Job :=
  { j with latex := newLatex, currentStep := .compile, status := .pending }

/-- Handler `handlePipelineLatexFix` (success path): store the AI-fixed source and set
`waiting_manual`; `errorMessage` is not touched. -/
def latexFix (fixed : List Char) (j : Job) : Job :=
  { j with latex := fixed, status := .waitingManual, currentStep := .latex }

/-- Handler `handlePipelineAbort`. -/
def abortJob (j : Job) : Job := { j with status := .aborted }

/-- Handler `handlePipelineRetry` (guarded by `status ∈ {error, aborted}`): full reset
to `pending/prompt` with counters and artifacts cleared. -/
def retryJob (j : Job) : Job :=
  { j with
    status := .pending
    currentStep := .prompt
    retryCount := 0
    errorMessage := none
    errorLog := none
    design := []
    latex := []
    pdfUrl := [] }


/-!  Result characterizations of the four step executors.  Each lemma records
the facts the pipeline invariants need: frame conditions on `pdfUrl` and the
retry counters, the shape of the status after the step, non-emptiness of the
error message on the `error` paths, and where a clean step leaves
`currentStep`. -/

theorem listAppend_ne_nil {l : List Char} (hl : l ≠ []) (e : List Char) :
    l ++ e ≠ [] := by
  intro h
  rw [List.append_eq_nil] at h
  exact hl h.1

theorem promptStep_spec (env : Env) (j : Job) :
    (executePromptStep env j).1.pdfUrl = j.pdfUrl ∧
    (executePromptStep env j).1.retryCount = j.retryCount ∧
    (executePromptStep env j).1.maxRetries = j.maxRetries ∧
    (executePromptStep env j).1.status ≠ .completed ∧
    ((executePromptStep env j).1.status = .error →
      ∃ m, (executePromptStep env j).1.errorMessage = some m ∧ m ≠ []) ∧
    ((executePromptStep env j).2 = none →
      (executePromptStep env j).1.status = .pending ∧
      (executePromptStep env j).1.currentStep = stepNext j.currentStep) := by
  unfold executePromptStep
  split
  · refine ⟨rfl, rfl, rfl, by simp [Job.setError], ?_, by simp⟩
    exact fun _ => ⟨str "Empty prompt", rfl, by decide⟩
  · split
    · exact ⟨rfl, rfl, rfl, by simp [Job.advanceStep], by simp [Job.advanceStep],
        fun _ => ⟨rfl, rfl⟩⟩
    · refine ⟨rfl, rfl, rfl, by simp [Job.setError], ?_, by simp⟩
      exact fun _ => ⟨_, rfl, listAppend_ne_nil (by decide) _⟩

theorem compileStep_spec (env : Env) (n : Nat) (j : Job) :
    (executeCompileStep env n j).1.retryCount = j.retryCount ∧
    (executeCompileStep env n j).1.maxRetries = j.maxRetries ∧
    ((executeCompileStep env n j).1.status = .completed →
      (executeCompileStep env n j).1.currentStep = .done ∧
      (executeCompileStep env n j).1.pdfUrl ≠ []) ∧
    ((executeCompileStep env n j).1.status = .error →
      ∃ m, (executeCompileStep env n j).1.errorMessage = some m ∧ m ≠ []) ∧
    ((executeCompileStep env n j).2.2 = none →
      (executeCompileStep env n j).1.status = .completed) ∧
    ((executeCompileStep env n j).1.status = .error ∨
      (executeCompileStep env n j).1.status = .completed) ∧
    (executeCompileStep env n j).2.1 ≤ n + 1 := by
  unfold executeCompileStep
  split
  · refine ⟨rfl, rfl, by simp [Job.setError], ?_, by simp, by simp [Job.setError],
      Nat.le_succ _⟩
    exact fun _ => ⟨str "No LaTeX available for compilation", rfl, by decide⟩
  · split
    · split
      · refine ⟨rfl, rfl, by simp [Job.setError], ?_, by simp, by simp [Job.setError],
          Nat.le_refl _⟩
        exact fun _ => ⟨_, rfl, listAppend_ne_nil (by decide) _⟩
      · refine ⟨rfl, rfl, ?_, by simp [Job.setCompleted], fun _ => rfl,
          by simp [Job.setCompleted], Nat.le_refl _⟩
        refine fun _ => ⟨rfl, ?_⟩
        show str "/vela/bucket/bucket/" ++ (Nat.repr j.id).data ++ str ".pdf" ≠ []
        exact listAppend_ne_nil (listAppend_ne_nil (by decide) _) _
    · refine ⟨rfl, rfl, by simp [Job.setError], ?_, by simp, by simp [Job.setError],
        Nat.le_succ _⟩
      exact fun _ => ⟨str "Failed to create bucket directory", rfl, by decide⟩

theorem designStep_spec (env : Env) (n : Nat) (j : Job) :
    (executeDesignStep env n j).1.pdfUrl = j.pdfUrl ∧
    (executeDesignStep env n j).1.maxRetries = j.maxRetries ∧
    j.retryCount ≤ (executeDesignStep env n j).1.retryCount ∧
    (j.retryCount ≤ j.maxRetries →
      (executeDesignStep env n j).1.retryCount ≤ j.maxRetries) ∧
    (executeDesignStep env n j).1.status ≠ .completed ∧
    ((executeDesignStep env n j).1.status = .error →
      ∃ m, (executeDesignStep env n j).1.errorMessage = some m ∧ m ≠ []) ∧
    ((executeDesignStep env n j).2.2 = none →
      (executeDesignStep env n j).1.status = .pending ∧
      ((executeDesignStep env n j).1.currentStep = stepNext j.currentStep ∨
        (executeDesignStep env n j).1.currentStep = .latex)) ∧
    (executeDesignStep env n j).2.1 ≤ n + 1 + (j.maxRetries - j.retryCount).toNat := by
  induction n, j using executeDesignStep.induct env with
  | case1 n j hparse e hgen h ih =>
    rw [executeDesignStep, if_pos hparse, hgen]
    simp only [dif_pos h]
    simp only [Job.canRetry, decide_eq_true_eq] at h
    simp only [Job.incrementRetry, Job.resetToStep, stepNext] at ih ⊢
    obtain ⟨h1, h2, h3, h4, h5, h6, h7, h8⟩ := ih
    refine ⟨h1, h2, by omega, fun hle => h4 (by omega), h5, h6, ?_, by omega⟩
    intro he
    obtain ⟨hs, hc⟩ := h7 he
    exact ⟨hs, Or.inr (hc.elim (fun x => x) (fun x => x))⟩
  | case2 n j hparse e hgen h =>
    rw [executeDesignStep, if_pos hparse, hgen]
    simp only [dif_neg h]
    refine ⟨rfl, rfl, le_refl _, fun hle => hle, by simp [Job.setError],
      fun _ => ⟨_, rfl, listAppend_ne_nil (by decide) _⟩, by simp,
      by show n + 1 ≤ n + 1 + _; omega⟩
  | case3 n j hparse design hgen =>
    rw [executeDesignStep, if_pos hparse, hgen]
    refine ⟨rfl, rfl, le_refl _, fun hle => hle, by simp [Job.advanceStep],
      by simp [Job.advanceStep], fun _ => ⟨rfl, Or.inl rfl⟩,
      by show n + 1 ≤ n + 1 + _; omega⟩
  | case4 n j hparse =>
    rw [executeDesignStep, if_neg hparse]
    refine ⟨rfl, rfl, le_refl _, fun hle => hle, by simp [Job.setError],
      fun _ => ⟨_, rfl, listAppend_ne_nil (by decide) _⟩, by simp,
      by show n ≤ n + 1 + _; omega⟩

theorem latexStep_spec (env : Env) (n : Nat) (j : Job) :
    (executeLatexStep env n j).1.pdfUrl = j.pdfUrl ∧
    (executeLatexStep env n j).1.maxRetries = j.maxRetries ∧
    j.retryCount ≤ (executeLatexStep env n j).1.retryCount ∧
    (j.retryCount ≤ j.maxRetries →
      (executeLatexStep env n j).1.retryCount ≤ j.maxRetries) ∧
    (executeLatexStep env n j).1.status ≠ .completed ∧
    ((executeLatexStep env n j).1.status = .error →
      ∃ m, (executeLatexStep env n j).1.errorMessage = some m ∧ m ≠ []) ∧
    ((executeLatexStep env n j).2.2 = none →
      (executeLatexStep env n j).1.status = .pending ∧
      ((executeLatexStep env n j).1.currentStep = stepNext j.currentStep ∨
        (executeLatexStep env n j).1.currentStep = .compile)) ∧
    (executeLatexStep env n j).2.1 ≤ n + 1 + (j.maxRetries - j.retryCount).toNat := by
  induction n, j using executeLatexStep.induct env with
  | case1 n j hparse e hgen h ih =>
    rw [executeLatexStep, if_pos hparse, hgen]
    simp only [dif_pos h]
    simp only [Job.canRetry, decide_eq_true_eq] at h
    simp only [Job.incrementRetry, Job.resetToStep, stepNext] at ih ⊢
    obtain ⟨h1, h2, h3, h4, h5, h6, h7, h8⟩ := ih
    refine ⟨h1, h2, by omega, fun hle => h4 (by omega), h5, h6, ?_, by omega⟩
    intro he
    obtain ⟨hs, hc⟩ := h7 he
    exact ⟨hs, Or.inr (hc.elim (fun x => x) (fun x => x))⟩
  | case2 n j hparse e hgen h =>
    rw [executeLatexStep, if_pos hparse, hgen]
    simp only [dif_neg h]
    refine ⟨rfl, rfl, le_refl _, fun hle => hle, by simp [Job.setError],
      fun _ => ⟨_, rfl, listAppend_ne_nil (by decide) _⟩, by simp,
      by show n + 1 ≤ n + 1 + _; omega⟩
  | case3 n j hparse reply hgen =>
    rw [executeLatexStep, if_pos hparse, hgen]
    refine ⟨rfl, rfl, le_refl _, fun hle => hle, by simp [Job.advanceStep],
      by simp [Job.advanceStep], fun _ => ⟨rfl, Or.inl rfl⟩,
      by show n + 1 ≤ n + 1 + _; omega⟩
  | case4 n j hparse =>
    rw [executeLatexStep, if_neg hparse]
    refine ⟨rfl, rfl, le_refl _, fun hle => hle, by simp [Job.setError],
      fun _ => ⟨_, rfl, listAppend_ne_nil (by decide) _⟩, by simp,
      by show n ≤ n + 1 + _; omega⟩

/-- Distance of a step from the end of the pipeline; each clean advance of the
worker loop strictly decreases it. -/
def stepRank : PipelineStep → Nat
  | .done => 0
  | .compile => 1
  | .latex => 2
  | .design => 3
  | .prompt => 4

/-- Any property that every step executor establishes (and that survives the
loop's `status := running` re-marking) holds for the job a terminating step
loop returns. -/
theorem stepLoop_preserve (P : Job → Prop)
    (hrun : ∀ env n j, P j → P (runStep env n j).1)
    (hset : ∀ j, P j → P { j with status := .running }) :
    ∀ fuel env n j r, P j → stepLoopFuel fuel env n j = some r → P r.1 := by
  intro fuel
  induction fuel with
  | zero => intro env n j r _ h; simp [stepLoopFuel] at h
  | succ fuel ih =>
    intro env n j r hP h
    rw [stepLoopFuel] at h
    rcases hstep : j.currentStep with _ | _ | _ | _ | _ <;> rw [hstep] at h
    case done =>
      simp only [Option.some.injEq] at h
      rw [← h]
      exact hP
    all_goals {
      rcases hr : runStep env n j with ⟨j', n', e⟩
      rw [hr] at h
      have hP' : P j' := by have := hrun env n j hP; rw [hr] at this; exact this
      rcases e with _ | err
      · simp only at h
        split at h
        · simp only [Option.some.injEq] at h; rw [← h]; exact hP'
        · exact ih env n' _ r (hset _ hP') h
      · simp only [Option.some.injEq] at h; rw [← h]; exact hP'
    }

/-- The worker's step loop terminates: fuel exceeding the current step's rank
is never exhausted, whatever the oracle outcomes. -/
theorem stepLoop_isSome :
    ∀ fuel env n j, stepRank j.currentStep < fuel →
      (stepLoopFuel fuel env n j).isSome := by
  intro fuel
  induction fuel with
  | zero => intro env n j h; omega
  | succ fuel ih =>
    intro env n j hrank
    rw [stepLoopFuel]
    rcases hstep : j.currentStep with _ | _ | _ | _ | _
    case done => simp
    case prompt =>
      rcases hr : runStep env n j with ⟨j', n', e⟩
      have hspec := promptStep_spec env j
      have hrun : runStep env n j = ((executePromptStep env j).1, n, (executePromptStep env j).2) := by
        simp [runStep, hstep]
      rw [hrun] at hr
      rcases e with _ | err
      · simp only [hr]
        split
        · simp
        · apply ih
          have h6 := hspec.2.2.2.2.2
          have : (executePromptStep env j).2 = none := by
            have := congrArg Prod.snd hr; simpa using And.right (by simpa using this)
          have hc := (h6 this).2
          have hj' : j' = (executePromptStep env j).1 := by
            have := congrArg Prod.fst hr; simpa using (by simpa using this : _ = j').symm
          rw [hj', hc, hstep]
          simp only [stepNext, stepRank]
          rw [hstep] at hrank
          simp only [stepRank] at hrank
          omega
      · simp only [hr]
        simp
    case design =>
      rcases hr : runStep env n j with ⟨j', n', e⟩
      have hspec := designStep_spec env n j
      have hrun : runStep env n j = executeDesignStep env n j := by
        simp [runStep, hstep]
      rw [hrun] at hr
      rcases e with _ | err
      · simp only [hr]
        split
        · simp
        · apply ih
          have h7 := hspec.2.2.2.2.2.2.1
          have he : (executeDesignStep env n j).2.2 = none := by
            rw [hr]
          have hc := (h7 he).2
          have hj' : j' = (executeDesignStep env n j).1 := by rw [hr]
          rw [hstep] at hrank
          simp only [stepRank] at hrank
          rcases hc with hc | hc <;>
            (rw [hj'] at * ; simp only [hc, hstep, stepNext, stepRank] ; omega)
      · simp only [hr]
        simp
    case latex =>
      rcases hr : runStep env n j with ⟨j', n', e⟩
      have hspec := latexStep_spec env n j
      have hrun : runStep env n j = executeLatexStep env n j := by
        simp [runStep, hstep]
      rw [hrun] at hr
      rcases e with _ | err
      · simp only [hr]
        split
        · simp
        · apply ih
          have h7 := hspec.2.2.2.2.2.2.1
          have he : (executeLatexStep env n j).2.2 = none := by rw [hr]
          have hc := (h7 he).2
          have hj' : j' = (executeLatexStep env n j).1 := by rw [hr]
          rw [hstep] at hrank
          simp only [stepRank] at hrank
          rcases hc with hc | hc <;>
            (rw [hj'] at * ; simp only [hc, hstep, stepNext, stepRank] ; omega)
      · simp only [hr]
        simp
    case compile =>
      rcases hr : runStep env n j with ⟨j', n', e⟩
      have hspec := compileStep_spec env n j
      have hrun : runStep env n j = executeCompileStep env n j := by
        simp [runStep, hstep]
      rw [hrun] at hr
      rcases e with _ | err
      · simp only [hr]
        split
        · simp
        · exfalso
          have h5 := hspec.2.2.2.2.1
          have he : (executeCompileStep env n j).2.2 = none := by rw [hr]
          have hcomp := h5 he
          have hj' : j' = (executeCompileStep env n j).1 := by rw [hr]
          rename_i hcond
          rw [not_and_or] at hcond
          rcases hcond with hcond | hcond <;>
            (rw [not_not] at hcond; rw [hj', hcomp] at hcond; exact JobStatus.noConfusion hcond)
      · simp only [hr]
        simp

/-!  The three quantified job invariants of the specification's data model,
named after what they constrain. -/

/-- Spec invariant: `status == completed` ⇒ `currentStep == done` ∧ `pdfUrl ≠ ""`. -/
def CompletedInv (j : Job) : Prop :=
  j.status = .completed → j.currentStep = .done ∧ j.pdfUrl ≠ []

/-- Error-message part of the spec invariant on failure states: a job in
status `error` carries a non-empty `errorMessage`. -/
def ErrorMsgInv (j : Job) : Prop :=
  j.status = .error → ∃ m, j.errorMessage = some m ∧ m ≠ []

/-- Spec invariant: `0 ≤ retryCount ≤ maxRetries`. -/
def RetryInv (j : Job) : Prop := 0 ≤ j.retryCount ∧ j.retryCount ≤ j.maxRetries

theorem runStep_completedInv (env : Env) (n : Nat) (j : Job) (hP : CompletedInv j) :
    CompletedInv (runStep env n j).1 := by
  rcases hstep : j.currentStep with _ | _ | _ | _ | _ <;> simp only [runStep, hstep]
  case prompt =>
    intro hcomp
    exact absurd hcomp (promptStep_spec env j).2.2.2.1
  case design =>
    intro hcomp
    exact absurd hcomp (designStep_spec env n j).2.2.2.2.1
  case latex =>
    intro hcomp
    exact absurd hcomp (latexStep_spec env n j).2.2.2.2.1
  case compile =>
    exact (compileStep_spec env n j).2.2.1
  case done =>
    exact hP

theorem runStep_errorMsgInv (env : Env) (n : Nat) (j : Job) (hP : ErrorMsgInv j) :
    ErrorMsgInv (runStep env n j).1 := by
  rcases hstep : j.currentStep with _ | _ | _ | _ | _ <;> simp only [runStep, hstep]
  case prompt => exact (promptStep_spec env j).2.2.2.2.1
  case design => exact (designStep_spec env n j).2.2.2.2.2.1
  case latex => exact (latexStep_spec env n j).2.2.2.2.2.1
  case compile => exact (compileStep_spec env n j).2.2.2.1
  case done => exact hP

theorem runStep_retryInv (env : Env) (n : Nat) (j : Job) (hP : RetryInv j) :
    RetryInv (runStep env n j).1 := by
  rcases hstep : j.currentStep with _ | _ | _ | _ | _ <;> simp only [runStep, hstep]
  case prompt =>
    have h := promptStep_spec env j
    exact ⟨by rw [h.2.1]; exact hP.1, by rw [h.2.1, h.2.2.1]; exact hP.2⟩
  case design =>
    have h := designStep_spec env n j
    exact ⟨le_trans hP.1 h.2.2.1, by rw [h.2.1]; exact h.2.2.2.1 hP.2⟩
  case latex =>
    have h := latexStep_spec env n j
    exact ⟨le_trans hP.1 h.2.2.1, by rw [h.2.1]; exact h.2.2.2.1 hP.2⟩
  case compile =>
    have h := compileStep_spec env n j
    exact ⟨by rw [h.1]; exact hP.1, by rw [h.1, h.2.1]; exact hP.2⟩
  case done => exact hP

theorem completedInv_setRunning (j : Job) : CompletedInv { j with status := .running } := by
  intro h
  exact absurd h (by simp)

theorem errorMsgInv_setRunning (j : Job) : ErrorMsgInv { j with status := .running } := by
  intro h
  exact absurd h (by simp)

/-- Claim C1: for every job, `status == completed` implies `currentStep == done`
and a non-empty `pdfUrl`; the invariant holds for a freshly created job and is
preserved by every step executor, the whole worker pass, and every control
operation (design approve/refine, latex approve/edit/fix, abort,
retry-from-scratch). -/
theorem claim1_completed_invariant :
    (∀ userId prompt maxRetries id convId,
      CompletedInv (newJob userId prompt maxRetries id convId)) ∧
    (∀ env j, CompletedInv j → CompletedInv (executePromptStep env j).1) ∧
    (∀ env n j, CompletedInv j → CompletedInv (executeDesignStep env n j).1) ∧
    (∀ env n j, CompletedInv j → CompletedInv (executeLatexStep env n j).1) ∧
    (∀ env n j, CompletedInv j → CompletedInv (executeCompileStep env n j).1) ∧
    (∀ env n j r, CompletedInv j → processJob env n j = some r → CompletedInv r.1) ∧
    (∀ j, CompletedInv j → CompletedInv (designApprove j)) ∧
    (∀ t j, CompletedInv j → CompletedInv (designRefine t j)) ∧
    (∀ j, CompletedInv j → CompletedInv (latexApprove j)) ∧
    (∀ t j, CompletedInv j → CompletedInv (latexEdit t j)) ∧
    (∀ t j, CompletedInv j → CompletedInv (latexFix t j)) ∧
    (∀ j, CompletedInv j → CompletedInv (abortJob j)) ∧
    (∀ j, CompletedInv j → CompletedInv (retryJob j)) := by
  refine ⟨?_, ?_, ?_, ?_, ?_, ?_, ?_, ?_, ?_, ?_, ?_, ?_, ?_⟩
  · intro userId prompt maxRetries id convId h
    exact absurd h (by simp [newJob])
  · intro env j _ h
    exact absurd h (promptStep_spec env j).2.2.2.1
  · intro env n j _ h
    exact absurd h (designStep_spec env n j).2.2.2.2.1
  · intro env n j _ h
    exact absurd h (latexStep_spec env n j).2.2.2.2.1
  · intro env n j _
    exact (compileStep_spec env n j).2.2.1
  · intro env n j r hP h
    rw [processJob] at h
    split at h
    · simp only [Option.some.injEq] at h; rw [← h]; exact hP
    · exact stepLoop_preserve CompletedInv runStep_completedInv
        (fun j _ => completedInv_setRunning j) 5 env n _ r (completedInv_setRunning j) h
  · intro j _ h
    exact absurd h (by simp [designApprove])
  · intro t j _ h
    exact absurd h (by simp [designRefine])
  · intro j _ h
    exact absurd h (by simp [latexApprove])
  · intro t j _ h
    exact absurd h (by simp [latexEdit])
  · intro t j _ h
    exact absurd h (by simp [latexFix])
  · intro j _ h
    exact absurd h (by simp [abortJob])
  · intro j _ h
    exact absurd h (by simp [retryJob])

/-- Witness for C1: the invariant propagates through a concrete control
operation on a concrete job. -/
theorem claim1_completed_invariant_witness :
    CompletedInv (designApprove (newJob (str "u1") (str "req") 3 0 1)) :=
  claim1_completed_invariant.2.2.2.2.2.2.1
    (newJob (str "u1") (str "req") 3 0 1) (by intro h; exact absurd h (by decide))

/-- Counterexample to C2: `handlePipelineDesignRefine` on a freshly created
job (whose `errorMessage` pointer is nil) sets `status = waiting_manual`
without writing `errorMessage`, so the job sits in `waiting_manual` with an
empty error message — the handler does not "leave a non-empty errorMessage". -/
theorem claim2_counterexample :
    (designRefine (str "use more diagrams") (newJob (str "u1") (str "req") 3 0 1)).status =
      .waitingManual ∧
    (designRefine (str "use more diagrams") (newJob (str "u1") (str "req") 3 0 1)).errorMessage =
      none := by
  exact ⟨rfl, rfl⟩

/-- Claim C2 (amended): after every pipeline operation, a job in status
`error` has a non-empty `errorMessage` (every `SetError` call site passes a
non-empty message).  The original claim fails for `waiting_manual`: the
DesignRefine and AIFix handlers set `status = waiting_manual` without writing
`errorMessage` (see the counterexample), and no operation ever assigns
`waiting_ai_fix`. -/
theorem claim2_error_message_invariant :
    (∀ userId prompt maxRetries id convId,
      ErrorMsgInv (newJob userId prompt maxRetries id convId)) ∧
    (∀ env j, ErrorMsgInv j → ErrorMsgInv (executePromptStep env j).1) ∧
    (∀ env n j, ErrorMsgInv j → ErrorMsgInv (executeDesignStep env n j).1) ∧
    (∀ env n j, ErrorMsgInv j → ErrorMsgInv (executeLatexStep env n j).1) ∧
    (∀ env n j, ErrorMsgInv j → ErrorMsgInv (executeCompileStep env n j).1) ∧
    (∀ env n j r, ErrorMsgInv j → processJob env n j = some r → ErrorMsgInv r.1) ∧
    (∀ j, ErrorMsgInv j → ErrorMsgInv (designApprove j)) ∧
    (∀ t j, ErrorMsgInv j → ErrorMsgInv (designRefine t j)) ∧
    (∀ j, ErrorMsgInv j → ErrorMsgInv (latexApprove j)) ∧
    (∀ t j, ErrorMsgInv j → ErrorMsgInv (latexEdit t j)) ∧
    (∀ t j, ErrorMsgInv j → ErrorMsgInv (latexFix t j)) ∧
    (∀ j, ErrorMsgInv j → ErrorMsgInv (abortJob j)) ∧
    (∀ j, ErrorMsgInv j → ErrorMsgInv (retryJob j)) := by
  refine ⟨?_, ?_, ?_, ?_, ?_, ?_, ?_, ?_, ?_, ?_, ?_, ?_, ?_⟩
  · intro userId prompt maxRetries id convId h
    exact absurd h (by simp [newJob])
  · intro env j _
    exact (promptStep_spec env j).2.2.2.2.1
  · intro env n j _
    exact (designStep_spec env n j).2.2.2.2.2.1
  · intro env n j _
    exact (latexStep_spec env n j).2.2.2.2.2.1
  · intro env n j _
    exact (compileStep_spec env n j).2.2.2.1
  · intro env n j r hP h
    rw [processJob] at h
    split at h
    · simp only [Option.some.injEq] at h; rw [← h]; exact hP
    · exact stepLoop_preserve ErrorMsgInv runStep_errorMsgInv
        (fun j _ => errorMsgInv_setRunning j) 5 env n _ r (errorMsgInv_setRunning j) h
  · intro j _ h
    exact absurd h (by simp [designApprove])
  · intro t j _ h
    exact absurd h (by simp [designRefine])
  · intro j _ h
    exact absurd h (by simp [latexApprove])
  · intro t j _ h
    exact absurd h (by simp [latexEdit])
  · intro t j _ h
    exact absurd h (by simp [latexFix])
  · intro j _ h
    exact absurd h (by simp [abortJob])
  · intro j _ h
    exact absurd h (by simp [retryJob])

/-- Witness for the amended C2 at a concrete job and operation. -/
theorem claim2_error_message_invariant_witness :
    ErrorMsgInv (abortJob (newJob (str "u1") (str "req") 3 0 1)) :=
  claim2_error_message_invariant.2.2.2.2.2.2.2.2.2.2.2.1
    (newJob (str "u1") (str "req") 3 0 1) (by intro h; exact absurd h (by decide))

/-- Claim C7: `0 ≤ retryCount ≤ maxRetries` always holds: it is established at
creation (the create route calls `NewJob(userID, request, 3)`; the general
conjunct covers any non-negative `maxRetries`), the design and latex retry
paths increment only under `CanRetry`, retry-from-scratch resets the counter
to 0, and no other operation touches the counters. -/
theorem claim7_retry_bound :
    (∀ userId prompt id convId, RetryInv (newJob userId prompt 3 id convId)) ∧
    (∀ userId prompt maxRetries id convId, 0 ≤ maxRetries →
      RetryInv (newJob userId prompt maxRetries id convId)) ∧
    (∀ env j, RetryInv j → RetryInv (executePromptStep env j).1) ∧
    (∀ env n j, RetryInv j → RetryInv (executeDesignStep env n j).1) ∧
    (∀ env n j, RetryInv j → RetryInv (executeLatexStep env n j).1) ∧
    (∀ env n j, RetryInv j → RetryInv (executeCompileStep env n j).1) ∧
    (∀ env n j r, RetryInv j → processJob env n j = some r → RetryInv r.1) ∧
    (∀ j, RetryInv j → RetryInv (designApprove j)) ∧
    (∀ t j, RetryInv j → RetryInv (designRefine t j)) ∧
    (∀ j, RetryInv j → RetryInv (latexApprove j)) ∧
    (∀ t j, RetryInv j → RetryInv (latexEdit t j)) ∧
    (∀ t j, RetryInv j → RetryInv (latexFix t j)) ∧
    (∀ j, RetryInv j → RetryInv (abortJob j)) ∧
    (∀ j, RetryInv j → RetryInv (retryJob j)) := by
  refine ⟨fun userId prompt id convId => ⟨by simp [newJob], by simp [newJob]⟩,
    fun userId prompt maxRetries id convId h => ⟨by simp [newJob], by simp [newJob]; exact h⟩,
    ?_, ?_, ?_, ?_, ?_,
    fun j h => h, fun t j h => h, fun j h => h, fun t j h => h, fun t j h => h,
    fun j h => h, fun j h => ⟨le_refl 0, le_trans h.1 h.2⟩⟩
  · intro env j h
    have hs := promptStep_spec env j
    exact ⟨by rw [hs.2.1]; exact h.1, by rw [hs.2.1, hs.2.2.1]; exact h.2⟩
  · intro env n j h
    have hs := designStep_spec env n j
    exact ⟨le_trans h.1 hs.2.2.1, by rw [hs.2.1]; exact hs.2.2.2.1 h.2⟩
  · intro env n j h
    have hs := latexStep_spec env n j
    exact ⟨le_trans h.1 hs.2.2.1, by rw [hs.2.1]; exact hs.2.2.2.1 h.2⟩
  · intro env n j h
    have hs := compileStep_spec env n j
    exact ⟨by rw [hs.1]; exact h.1, by rw [hs.1, hs.2.1]; exact h.2⟩
  · intro env n j r hP h
    rw [processJob] at h
    split at h
    · simp only [Option.some.injEq] at h; rw [← h]; exact hP
    · exact stepLoop_preserve RetryInv runStep_retryInv (fun j hj => hj) 5 env n
        { j with status := .running } r hP h

/-- Witness for C7 at a concrete job and operation. -/
theorem claim7_retry_bound_witness :
    RetryInv (retryJob (newJob (str "u1") (str "req") 3 0 1)) :=
  claim7_retry_bound.2.2.2.2.2.2.2.2.2.2.2.2.2
    (newJob (str "u1") (str "req") 3 0 1) ⟨by decide, by decide⟩

/-- Claim C10: a single worker pass terminates for every initial job record
and every sequence of oracle outcomes: the step loop never runs out with fuel
5 (each clean iteration strictly advances `currentStep` towards `done`), and
the in-step retry recursion of the design and latex steps performs at most
`1 + (maxRetries − retryCount)` generation calls. -/
theorem claim10_worker_pass_terminates :
    ∀ env n j,
      (processJob env n j).isSome ∧
      (stepLoopFuel 5 env n j).isSome ∧
      (executeDesignStep env n j).2.1 ≤ n + 1 + (j.maxRetries - j.retryCount).toNat ∧
      (executeLatexStep env n j).2.1 ≤ n + 1 + (j.maxRetries - j.retryCount).toNat := by
  intro env n j
  have hrank : ∀ jj : Job, stepRank jj.currentStep < 5 := by
    intro jj
    cases jj.currentStep <;> simp [stepRank]
  refine ⟨?_, stepLoop_isSome 5 env n j (hrank j),
    (designStep_spec env n j).2.2.2.2.2.2.2, (latexStep_spec env n j).2.2.2.2.2.2.2⟩
  rw [processJob]
  split
  · simp
  · exact stepLoop_isSome 5 env n _ (hrank _)

/-- Oracle under which every typesetter call fails with a fixed log. -/
def envCompileFail : Env :=
  { parseOk := fun _ => true
    parseErr := fun _ => []
    genDesign := fun _ => .ok (str "the design")
    genLatex := fun _ => .ok (str "the latex")
    compileRes := fun _ => .error (str "! Undefined control sequence.")
    bucketMkdirOk := true }

/-- A job sitting at the compile step with a non-empty source. -/
def jobAtCompile : Job :=
  { newJob (str "u1") (str "req") 3 0 1 with
    currentStep := .compile
    status := .running
    latex := str "\\documentclass" }

/-- Counterexample to C3: when the typesetter call fails, `executeCompileStep`
calls `job.SetError(msg, nil)` — the job ends in status `error` but its
`errorLog` is nil, not the non-empty compilation log the claim requires (the
log text only reaches `errorMessage` inside the formatted message). -/
theorem claim3_counterexample :
    (executeCompileStep envCompileFail 0 jobAtCompile).1.status = .error ∧
    (executeCompileStep envCompileFail 0 jobAtCompile).1.errorLog = none := by
  exact ⟨rfl, rfl⟩

/-- Claim C3 (amended): when the compile step's typesetter call fails, the job
is set to status `error` with `errorMessage = "LaTeX compilation failed: " ++
log` and `errorLog = nil` (the log is **not** stored in `errorLog`), and the
worker pass stops there without re-running the compile step: the step loop
returns immediately with the single compile invocation's result, whatever fuel
remains. -/
theorem claim3_compile_failure (env : Env) (n : Nat) (j : Job) (log : List Char)
    (hlatex : goTrimSpace j.latex ≠ []) (hmkdir : env.bucketMkdirOk = true)
    (hfail : env.compileRes n = .error log) :
    (executeCompileStep env n j).1.status = .error ∧
    (executeCompileStep env n j).1.errorMessage =
      some (str "LaTeX compilation failed: " ++ log) ∧
    (executeCompileStep env n j).1.errorLog = none ∧
    (executeCompileStep env n j).2 = (n + 1, some log) ∧
    (∀ fuel, j.currentStep = .compile →
      stepLoopFuel (fuel + 1) env n j =
        some ((executeCompileStep env n j).1, n + 1, some log)) := by
  have hstep : executeCompileStep env n j =
      (j.setError (str "LaTeX compilation failed: " ++ log) none, n + 1, some log) := by
    rw [executeCompileStep, if_neg hlatex, if_pos hmkdir, hfail]
  refine ⟨by rw [hstep]; rfl, by rw [hstep]; rfl, by rw [hstep]; rfl, by rw [hstep], ?_⟩
  intro fuel hc
  rw [stepLoopFuel, hc]
  have hrun : runStep env n j = executeCompileStep env n j := by
    simp [runStep, hc]
  rw [hrun, hstep]

/-!  Properties of the Go string helpers, leading to the exact idempotence
domain of `cleanLatex`. -/

theorem goHasPre_iff (p y : List Char) : goHasPre p y = true ↔ y.take p.length = p := by
  simp [goHasPre]

theorem goHasPre_of_longer {t p y : List Char} (h : goHasPre p y = true)
    (hlen : t.length ≤ p.length) (ht : p.take t.length = t) : goHasPre t y = true := by
  rw [goHasPre_iff] at h ⊢
  calc y.take t.length = (y.take p.length).take t.length := by
        rw [List.take_take, min_eq_left hlen]
    _ = p.take t.length := by rw [h]
    _ = t := ht

theorem goTrimPre_eq_self {p y : List Char} (h3 : goHasPre (str "```") y = false)
    (hlen : (str "```").length ≤ p.length)
    (ht : p.take (str "```").length = str "```") : goTrimPre p y = y := by
  rw [goTrimPre, if_neg]
  intro hp
  rw [goHasPre_of_longer hp hlen ht] at h3
  exact Bool.noConfusion h3

theorem goHasSuf_iff (p y : List Char) :
    goHasSuf p y = true ↔ y.drop (y.length - p.length) = p := by
  simp [goHasSuf]

theorem length_le_of_goHasSuf {p y : List Char} (h : goHasSuf p y = true) :
    p.length ≤ y.length := by
  rw [goHasSuf_iff] at h
  have hlen := congrArg List.length h
  simp at hlen
  omega

theorem goHasSuf_of_longer {t p y : List Char} (h : goHasSuf p y = true)
    (hlen : t.length ≤ p.length) (ht : p.drop (p.length - t.length) = t) :
    goHasSuf t y = true := by
  have hpy := length_le_of_goHasSuf h
  rw [goHasSuf_iff] at h ⊢
  calc y.drop (y.length - t.length)
      = (y.drop (y.length - p.length)).drop (p.length - t.length) := by
        rw [List.drop_drop]
        congr 1
        omega
    _ = p.drop (p.length - t.length) := by rw [h]
    _ = t := ht

theorem goTrimSuf_eq_self {p y : List Char} (h3 : goHasSuf (str "```") y = false)
    (hlen : (str "```").length ≤ p.length)
    (ht : p.drop (p.length - (str "```").length) = str "```") : goTrimSuf p y = y := by
  rw [goTrimSuf, if_neg]
  intro hp
  rw [goHasSuf_of_longer hp hlen ht] at h3
  exact Bool.noConfusion h3

theorem dropWhile_cons_not {p : Char → Bool} {l t : List Char} {a : Char}
    (h : l.dropWhile p = a :: t) : p a = false := by
  induction l with
  | nil => simp at h
  | cons b m ih =>
    rw [List.dropWhile_cons] at h
    split at h
    · exact ih h
    · cases h
      simp_all

theorem goTrimSpace_idem (l : List Char) : goTrimSpace (goTrimSpace l) = goTrimSpace l := by
  unfold goTrimSpace
  have hA : ((l.dropWhile goIsSpace).rdropWhile goIsSpace).dropWhile goIsSpace =
      (l.dropWhile goIsSpace).rdropWhile goIsSpace := by
    cases hcase : (l.dropWhile goIsSpace).rdropWhile goIsSpace with
    | nil => simp
    | cons a t =>
      have hpre : (l.dropWhile goIsSpace).rdropWhile goIsSpace <+: l.dropWhile goIsSpace :=
        List.rdropWhile_prefix goIsSpace (l.dropWhile goIsSpace)
      rw [hcase] at hpre
      obtain ⟨s, hs⟩ := hpre
      have hd2 : (l.dropWhile goIsSpace).dropWhile goIsSpace = a :: (t ++ s) := by
        rw [List.dropWhile_idempotent]
        rw [← hs]
        simp
      have ha := dropWhile_cons_not hd2
      rw [List.dropWhile_cons, ha]
      simp
  rw [hA]
  exact List.rdropWhile_idempotent goIsSpace (l.dropWhile goIsSpace)

theorem cleanLatex_trimmed (x : List Char) : goTrimSpace (cleanLatex x) = cleanLatex x := by
  unfold cleanLatex
  exact goTrimSpace_idem _

/-- Counterexample to C5: `cleanLatex` is not idempotent.  On
`" ```latex\nfoo"` the fence checks all miss (the string starts with a space),
so the first pass only trims the space — exposing a `"```latex\n"` fence that
the second pass then strips. -/
theorem claim5_counterexample :
    cleanLatex (cleanLatex (str " ```latex\nfoo")) ≠ cleanLatex (str " ```latex\nfoo") := by
  decide

/-- Claim C5 (amended): the sanitizer is idempotent exactly on the outputs
that do not still begin or end with a triple-backtick fence: whenever
`cleanLatex x` neither starts nor ends with three backticks, a second pass is
the identity.  In general idempotence fails (see the counterexample) because
trimming whitespace or an outer fence can expose a fresh fence. -/
theorem claim5_sanitizer_conditional_idem (x : List Char)
    (hpre : goHasPre (str "```") (cleanLatex x) = false)
    (hsuf : goHasSuf (str "```") (cleanLatex x) = false) :
    cleanLatex (cleanLatex x) = cleanLatex x := by
  show goTrimSpace (goTrimSuf (str "```") (goTrimSuf (str "\n```")
    (goTrimPre (str "```") (goTrimPre (str "```\n") (goTrimPre (str "```latex")
      (goTrimPre (str "```latex\n") (cleanLatex x))))))) = cleanLatex x
  rw [goTrimPre_eq_self hpre (by decide) (by decide),
    goTrimPre_eq_self hpre (by decide) (by decide),
    goTrimPre_eq_self hpre (by decide) (by decide),
    goTrimPre_eq_self hpre (by decide) (by decide),
    goTrimSuf_eq_self hsuf (by decide) (by decide),
    goTrimSuf_eq_self hsuf (by decide) (by decide),
    cleanLatex_trimmed]

/-- Witness for the amended C5 at a concrete fence-free sanitized string. -/
theorem claim5_sanitizer_conditional_idem_witness :
    cleanLatex (cleanLatex (str "  hello \\LaTeX  ")) = cleanLatex (str "  hello \\LaTeX  ") :=
  claim5_sanitizer_conditional_idem (str "  hello \\LaTeX  ") (by decide) (by decide)

/-- Witness for the amended C3 at a concrete failing typesetter call. -/
theorem claim3_compile_failure_witness :
    (executeCompileStep envCompileFail 0 jobAtCompile).1.status = .error ∧
    (executeCompileStep envCompileFail 0 jobAtCompile).1.errorLog = none ∧
    stepLoopFuel 5 envCompileFail 0 jobAtCompile =
      some ((executeCompileStep envCompileFail 0 jobAtCompile).1, 1,
        some (str "! Undefined control sequence.")) := by
  have h := claim3_compile_failure envCompileFail 0 jobAtCompile
    (str "! Undefined control sequence.") (by decide) rfl rfl
  exact ⟨h.1, h.2.2.1, h.2.2.2.2 4 rfl⟩

/-!  Model of `formatAttachmentContext` (`server/pipeline/ai.go`): the design prompt's
attachment block.  `fmt.Sprintf` of the header is modelled by explicit
concatenation with `Nat.repr` for the numeric fields. -/

/-- The `ai.Attachment` fields used by `formatAttachmentContext`. -/
structure Attachment where
  name : List Char
  mimeType : List Char
  size : Nat
  content : List Char
  encoding : List Char

/-- Model of the header line `fmt.Sprintf("[%d] %s (%s, %d bytes, %s)\n", i+1, …)`. -/
def attachmentHeader (i : Nat) (a : Attachment) : List Char :=
  str "[" ++ (Nat.repr (i + 1)).data ++ str "] " ++ a.name ++ str " (" ++
    a.mimeType ++ str ", " ++ (Nat.repr a.size).data ++ str " bytes, " ++
    a.encoding ++ str ")\n"

/-- One iteration of the `for i, att := range attachments` builder loop:
header, the content truncated at 20 000 characters with the `[TRUNCATED]`
marker, and the `---` separator. -/
def attachmentItem (i : Nat) (a : Attachment) : List Char :=
  attachmentHeader i a ++
    (if a.content.length > 20000 then a.content.take 20000 ++ str "\n[TRUNCATED]"
     else a.content) ++
    str "\n---\n"

/-- The builder loop over the remaining attachments, `i` being the index of
the first. -/
def attachmentItems (i : Nat) : List Attachment → List Char
  | [] => []
  | a :: rest => attachmentItem i a ++ attachmentItems (i + 1) rest

/-- Model of `formatAttachmentContext`: `"(none)"` for an empty list, else the
concatenated per-item blocks. -/
def formatAttachmentContext (attachments : List Attachment) : List Char :=
  if attachments.length = 0 then str "(none)" else attachmentItems 0 attachments

theorem attachmentItems_contains {attachments : List Attachment} {k : Nat} {a : Attachment}
    (h : attachments[k]? = some a) (i : Nat) :
    ∃ pre post, attachmentItems i attachments = pre ++ attachmentItem (i + k) a ++ post := by
  induction attachments generalizing i k with
  | nil => simp at h
  | cons b rest ih =>
    cases k with
    | zero =>
      simp only [List.getElem?_cons_zero, Option.some.injEq] at h
      subst h
      refine ⟨[], attachmentItems (i + 1) rest, ?_⟩
      rw [attachmentItems]
      simp
    | succ k =>
      simp only [List.getElem?_cons_succ] at h
      obtain ⟨pre, post, hp⟩ := ih h (i + 1)
      refine ⟨attachmentItem i b ++ pre, post, ?_⟩
      rw [attachmentItems, hp]
      have harith : i + 1 + k = i + (k + 1) := by omega
      rw [harith]
      simp [List.append_assoc]

/-- Claim C6: in the formatted attachment context, an attachment whose content
exceeds 20 000 characters contributes its first 20 000 characters verbatim
followed by the `"\n[TRUNCATED]"` marker; content of at most 20 000 characters
is included unchanged, directly followed by the `"\n---\n"` separator with no
marker. -/
theorem claim6_attachment_truncation (attachments : List Attachment) (k : Nat)
    (a : Attachment) (h : attachments[k]? = some a) :
    (a.content.length > 20000 →
      ∃ pre post, formatAttachmentContext attachments =
        pre ++ (a.content.take 20000 ++ str "\n[TRUNCATED]") ++ post) ∧
    (a.content.length ≤ 20000 →
      ∃ pre post, formatAttachmentContext attachments =
        pre ++ (a.content ++ str "\n---\n") ++ post) := by
  have hne : ¬ attachments.length = 0 := by
    intro h0
    rw [List.length_eq_zero] at h0
    subst h0
    simp at h
  obtain ⟨pre, post, hp⟩ := attachmentItems_contains h 0
  rw [Nat.zero_add] at hp
  constructor
  · intro hlen
    refine ⟨pre ++ attachmentHeader k a, str "\n---\n" ++ post, ?_⟩
    rw [formatAttachmentContext, if_neg hne, hp, attachmentItem, if_pos hlen]
    simp [List.append_assoc]
  · intro hlen
    refine ⟨pre ++ attachmentHeader k a, post, ?_⟩
    rw [formatAttachmentContext, if_neg hne, hp, attachmentItem, if_neg (by omega)]
    simp [List.append_assoc]

/-- An oversized attachment (20 001 characters). -/
def bigAttachment : Attachment :=
  { name := str "notes.txt"
    mimeType := str "text/plain"
    size := 20001
    content := List.replicate 20001 'a'
    encoding := str "utf-8" }

/-- A small attachment (4 characters). -/
def smallAttachment : Attachment :=
  { name := str "tiny.txt"
    mimeType := str "text/plain"
    size := 4
    content := str "tiny"
    encoding := str "utf-8" }

/-- Witness for C6 on concrete oversized and small attachments. -/
theorem claim6_attachment_truncation_witness :
    (∃ pre post, formatAttachmentContext [bigAttachment] =
      pre ++ ((List.replicate 20001 'a').take 20000 ++ str "\n[TRUNCATED]") ++ post) ∧
    (∃ pre post, formatAttachmentContext [smallAttachment] =
      pre ++ (str "tiny" ++ str "\n---\n") ++ post) :=
  ⟨(claim6_attachment_truncation [bigAttachment] 0 bigAttachment rfl).1
    (by show (List.replicate 20001 'a').length > 20000; rw [List.length_replicate]; omega),
   (claim6_attachment_truncation [smallAttachment] 0 smallAttachment rfl).2 (by decide)⟩

/-!  Conversation bookkeeping (`Store.SaveConversation`, the sheet-create
route and `handlePipelineRetry`).  The conversations file is a map keyed by
the **conversation's own id** (`convs[conv.ID.String()] = conv`), modelled as
an association list with in-place replacement; `uuid.New()` is modelled by a
monotone counter, which captures uuid freshness. -/

/-- The fields of `pipeline.Conversation` that the claims inspect. -/
structure ConvRec where
  id : Nat
  jobId : Nat
deriving DecidableEq, Repr

/-- Conversation store plus the uuid source. -/
structure PipeState where
  convs : List (Nat × ConvRec)
  nextUuid : Nat
deriving DecidableEq, Repr

/-- Model of `Store.SaveConversation`: upsert keyed by `conv.ID`. -/
def saveConversation (m : List (Nat × ConvRec)) (c : ConvRec) : List (Nat × ConvRec) :=
  if m.any (fun kc => kc.1 == c.id) then
    m.map (fun kc => if kc.1 == c.id then (c.id, c) else kc)
  else
    m ++ [(c.id, c)]

/-- The sheet-create route: `NewJob` (a fresh job id and a fresh, unused
`ConversationID`), then `NewConversation(job.ID)` with its own fresh id,
saved via `SaveConversation`.  Returns the new job's id. -/
def createJobConv (s : PipeState) : Nat × PipeState :=
  let jobId := s.nextUuid
  let convId := s.nextUuid + 2
  (jobId,
    { convs := saveConversation s.convs { id := convId, jobId := jobId }
      nextUuid := s.nextUuid + 3 })

/-- Handler `handlePipelineRetry`, conversation effect: save a brand-new
`NewConversation(job.ID)` under a fresh conversation id. -/
def retryConv (s : PipeState) (jobId : Nat) : PipeState :=
  { convs := saveConversation s.convs { id := s.nextUuid, jobId := jobId }
    nextUuid := s.nextUuid + 1 }

/-- Number of stored conversations whose `jobId` matches. -/
def convCountFor (s : PipeState) (jobId : Nat) : Nat :=
  (s.convs.filter (fun kc => kc.2.jobId == jobId)).length

/-- All stored keys and job links are below the uuid counter (true of every
reachable state, since ids are drawn from the counter). -/
def PipeWF (s : PipeState) : Prop :=
  ∀ kc ∈ s.convs, kc.1 < s.nextUuid ∧ kc.2.jobId < s.nextUuid

/-- Counterexample to C4: create a job (exactly one conversation for it),
then retry-from-scratch.  The retry handler saves a **fresh** conversation
under a new key and never deletes the old one, so the job now has **two**
conversations, not one. -/
theorem claim4_counterexample :
    convCountFor
      (retryConv (createJobConv { convs := [], nextUuid := 0 }).2
        (createJobConv { convs := [], nextUuid := 0 }).1)
      (createJobConv { convs := [], nextUuid := 0 }).1 = 2 := by
  decide

theorem saveConversation_fresh {m : List (Nat × ConvRec)} {c : ConvRec}
    (h : ∀ kc ∈ m, kc.1 ≠ c.id) : saveConversation m c = m ++ [(c.id, c)] := by
  rw [saveConversation, if_neg]
  simp only [List.any_eq_true, beq_iff_eq, not_exists, not_and]
  exact fun kc hkc => h kc hkc

/-- Claim C4 (amended): enqueue-time creation stores exactly one conversation
for the new job, but retry-from-scratch does **not** replace it: it saves a
fresh conversation under a new key and leaves the old one in place, so each
retry increases the number of conversations for the job id by one (two after
the first retry) instead of keeping it at exactly one. -/
theorem claim4_conversation_accumulation (s : PipeState) (hwf : PipeWF s) :
    convCountFor (createJobConv s).2 (createJobConv s).1 = 1 ∧
    (∀ jobId, convCountFor (retryConv s jobId) jobId = convCountFor s jobId + 1) := by
  constructor
  · have hfresh : ∀ kc ∈ s.convs, kc.1 ≠ s.nextUuid + 2 := by
      intro kc hkc
      have := (hwf kc hkc).1
      omega
    show convCountFor
      { convs := saveConversation s.convs { id := s.nextUuid + 2, jobId := s.nextUuid }
        nextUuid := s.nextUuid + 3 } s.nextUuid = 1
    rw [convCountFor]
    simp only
    rw [saveConversation_fresh hfresh, List.filter_append]
    have hnone : s.convs.filter (fun kc => kc.2.jobId == s.nextUuid) = [] := by
      rw [List.filter_eq_nil_iff]
      intro kc hkc
      have := (hwf kc hkc).2
      simp only [beq_iff_eq]
      omega
    rw [hnone]
    simp
  · intro jobId
    have hfresh : ∀ kc ∈ s.convs, kc.1 ≠ s.nextUuid := by
      intro kc hkc
      have := (hwf kc hkc).1
      omega
    show convCountFor
      { convs := saveConversation s.convs { id := s.nextUuid, jobId := jobId }
        nextUuid := s.nextUuid + 1 } jobId = convCountFor s jobId + 1
    rw [convCountFor, convCountFor]
    simp only
    rw [saveConversation_fresh hfresh, List.filter_append]
    simp

/-- Witness for the amended C4 at a concrete state. -/
theorem claim4_conversation_accumulation_witness :
    convCountFor (createJobConv { convs := [], nextUuid := 0 }).2
      (createJobConv { convs := [], nextUuid := 0 }).1 = 1 ∧
    convCountFor (retryConv { convs := [], nextUuid := 0 } 7) 7 =
      convCountFor { convs := [], nextUuid := 0 } 7 + 1 := by
  have h := claim4_conversation_accumulation { convs := [], nextUuid := 0 } (by intro kc hkc; simp at hkc)
  exact ⟨h.1, h.2 7⟩

/-!  Model of `Store.loadJobsUnsafe` (`server/pipeline/ai.go`): read the primary jobs
file; when the read succeeds but the data is empty or fails to unmarshal, try
the `.bak` sidecar; a failing **read** of the primary returns immediately.
File reads and `json.Unmarshal` are oracles: `ReadRes` is the outcome of
`os.ReadFile`, and `parse` maps file bytes to the decoded jobs map (`none` =
unmarshal error; the Go nil-map normalisation is identity on the model's
already-total maps). -/

/-- Outcome of `os.ReadFile`. -/
inductive ReadRes where
  | failed
  | ok (data : List Char)
deriving DecidableEq, Repr

/-- Model of `Store.loadJobsUnsafe`, with the two file reads and the unmarshaller as
parameters. -/
def loadJobsUnsafe (primary backup : ReadRes)
    (parse : List Char → Option (List (Nat × Job))) :
    Except (List Char) (List (Nat × Job)) :=
  match primary with
  | .failed => .error (str "failed to read jobs file")
  | .ok data =>
    if data.length = 0 ∨ parse data = none then
      match backup with
      | .ok b =>
        if b.length > 0 then
          match parse b with
          | some jobs => .ok jobs
          | none => .error (str "failed to unmarshal jobs")
        else .error (str "failed to unmarshal jobs")
      | .failed => .error (str "failed to unmarshal jobs")
    else .ok ((parse data).getD [])

/-- A backup parser for the counterexample: the one-byte file `"g"` decodes
to a singleton jobs map. -/
def parseOneJob : List Char → Option (List (Nat × Job)) :=
  fun l => if l = str "g" then some [(1, newJob (str "u1") (str "req") 3 1 2)] else none

/-- Counterexample to C8: when the primary **read itself fails**, the store
returns the read error at once and never consults the `.bak` sidecar, even
though the backup here is readable and parses to a good snapshot.  The claim's
first failure case (unreadable primary) does not fall back. -/
theorem claim8_counterexample :
    loadJobsUnsafe .failed (.ok (str "g")) parseOneJob =
      .error (str "failed to read jobs file") := by
  rfl

/-- Claim C8 (amended): the `.bak` fallback happens only in the parse-failure
case — if the primary file reads but is empty or fails to unmarshal and the
backup is non-empty and parses, the backup snapshot is returned; if the
primary read itself fails, the read error propagates regardless of the
backup. -/
theorem claim8_backup_fallback (parse : List Char → Option (List (Nat × Job)))
    (data b : List Char) (jobs : List (Nat × Job))
    (hbad : data.length = 0 ∨ parse data = none)
    (hb : b.length > 0) (hparse : parse b = some jobs) :
    loadJobsUnsafe (.ok data) (.ok b) parse = .ok jobs ∧
    (∀ backup, loadJobsUnsafe .failed backup parse =
      .error (str "failed to read jobs file")) := by
  constructor
  · rw [loadJobsUnsafe]
    simp only [if_pos hbad, hparse]
    rw [if_pos hb]
  · intro backup
    rfl

/-- Witness for the amended C8 at concrete file contents. -/
theorem claim8_backup_fallback_witness :
    loadJobsUnsafe (.ok []) (.ok (str "g")) parseOneJob =
      .ok [(1, newJob (str "u1") (str "req") 3 1 2)] ∧
    loadJobsUnsafe .failed (.ok (str "g")) parseOneJob =
      .error (str "failed to read jobs file") := by
  have h := claim8_backup_fallback parseOneJob [] (str "g")
    [(1, newJob (str "u1") (str "req") 3 1 2)] (Or.inl rfl) (by decide) (by decide)
  exact ⟨h.1, h.2 (.ok (str "g"))⟩

/-!  Model of `Store.GetJobForUpdate` and its commit closure.  The jobs mutex is a
`locked` flag — Go's `sync.Mutex.Unlock` on an unlocked mutex is a runtime
fault, modelled as `none`.  The persisted jobs map is a partial function
(exactly Go map semantics); disk I/O of `loadJobsUnsafe`/`saveJobsUnsafe`
inside a healthy store round-trips, so the in-memory map stands for the
file. -/

/-- Jobs-store state: the writer lock and the persisted jobs map. -/
structure StoreSt where
  locked : Bool
  jobsFile : Nat → Option Job

/-- Go map assignment `jobs[id.String()] = job`. -/
def storeUpsert (m : Nat → Option Job) (id : Nat) (j : Job) : Nat → Option Job :=
  fun k => if k = id then some j else m k

/-- Model of `Store.GetJobForUpdate`: acquire the writer lock, load, return the job
still holding the lock; on not-found unlock and report nothing. -/
def getJobForUpdate (s : StoreSt) (id : Nat) : Option Job × StoreSt :=
  match s.jobsFile id with
  | none => (none, { s with locked := false })
  | some j => (some j, { s with locked := true })

/-- The commit closure returned by `GetJobForUpdate`: write the job back,
save, and `Unlock()`.  Unlocking an unlocked mutex faults (`none`). -/
def commitJob (id : Nat) (j : Job) (s : StoreSt) : Option StoreSt :=
  if s.locked then some { locked := false, jobsFile := storeUpsert s.jobsFile id j }
  else none

/-- A stored job and a store holding only it, for the concrete scenarios. -/
def storeJob0 : Job := newJob (str "u1") (str "req") 3 1 2

/-- Unlocked one-job store. -/
def storeS0 : StoreSt :=
  { locked := false, jobsFile := fun k => if k = 1 then some storeJob0 else none }

/-- Counterexample to C9: after `GetJobForUpdate` the first `commit()` call
succeeds, but a second invocation is **not** a no-op: the commit closure
unconditionally calls `Unlock()` on the already-released mutex, a Go runtime
fault (`sync: unlock of unlocked mutex`) — it does not "have the same effect
as invoking it once" and it does fault. -/
theorem claim9_counterexample :
    (commitJob 1 storeJob0 (getJobForUpdate storeS0 1).2).isSome = true ∧
    (commitJob 1 storeJob0 (getJobForUpdate storeS0 1).2).bind (commitJob 1 storeJob0) =
      none := by
  exact ⟨rfl, rfl⟩

/-- Claim C9 (amended): invoked once while the lock is held, the commit
closure persists the caller's job and releases the lock; it is not
idempotent — a second invocation in the same call context unlocks an
unlocked mutex and faults. -/
theorem claim9_commit_single_use (s : StoreSt) (id : Nat) (j : Job)
    (hlock : s.locked = true) :
    ∃ s', commitJob id j s = some s' ∧ s'.locked = false ∧
      s'.jobsFile id = some j ∧ commitJob id j s' = none := by
  refine ⟨{ locked := false, jobsFile := storeUpsert s.jobsFile id j }, ?_, rfl, ?_, rfl⟩
  · rw [commitJob, if_pos hlock]
  · simp [storeUpsert]

/-- Witness for the amended C9 at a concrete locked store. -/
theorem claim9_commit_single_use_witness :
    (commitJob 1 storeJob0 { locked := true, jobsFile := fun _ => none }).isSome = true ∧
    (commitJob 1 storeJob0 { locked := true, jobsFile := fun _ => none }).bind
      (commitJob 1 storeJob0) = none := by
  obtain ⟨s', h1, _, _, h4⟩ :=
    claim9_commit_single_use { locked := true, jobsFile := fun _ => none } 1 storeJob0 rfl
  rw [h1]
  exact ⟨rfl, h4⟩
